import Mathlib

/-!
Verification of the data-loading and batching pipeline of
`opennmt/utils/data.py` against its natural-language specification.

The TensorFlow dataset combinators are shallowly embedded on finite lists:
a dataset is a `List` of elements, `dataset.map` is `List.map`,
`dataset.filter` is `List.filter`, `dataset.shard` keeps the indices with a
given residue, `dataset.skip`/`take` are `List.drop`/`List.take`,
`padded_batch` groups consecutive elements into chunks (padding changes only
the tensor representation inside a batch, never which examples a batch holds,
so batches are kept as lists of examples), `group_by_window` is an explicit
per-key-queue scheduler, `repeat` is a flag interpreted by a cyclic indexing
function, and `prefetch` is the identity on contents.  Shuffling primitives
take the chosen permutation as an explicit argument.  Python integers are
modelled by `Int` where the source can see negative values (sequence lengths
returned by user functions, signed configuration values) and by `Nat` for
counts and sizes; Python floor division and modulo on possibly-negative
values are `Int.fdiv`/`Int.fmod`.  Python exceptions (`ValueError`,
division by zero, indexing a non-dict) are modelled with `Except`/`Option`
results.
-/

namespace OpenNMT

/-- A Python value that is either a single integer length or a list of
integer lengths, as returned by a `*_length_fn` (multi-source case). -/
inductive PyLen where
  | int (n : Int)
  | list (ns : List Int)
deriving DecidableEq

/-- A `maximum_*_length` configuration value: `None`, a single integer, or a
list of integers. -/
inductive PyMax where
  | unset
  | int (n : Int)
  | list (ns : List Int)
deriving DecidableEq

/-- Errors surfaced by the pipeline: `ValueError` at construction time
(`invalidConfig`), taking an element from an empty dataset, a runtime type
error (indexing a non-dict element), and integer division by zero. -/
inductive PipeErr where
  | invalidConfig (msg : String)
  | emptySource
  | typeError
  | divisionByZero
deriving DecidableEq

/-- Boolean test for a successful `Except` result. -/
def exceptIsOk : Except ε α → Bool
  | .ok _ => true
  | .error _ => false

/-- Fuel-indexed chunk grouping; the fuel only needs to dominate the list
length, which keeps the recursion structural and kernel-computable. -/
def chunksAux (w : Nat) : Nat → List α → List (List α)
  | 0, _ => []
  | _, [] => []
  | fuel + 1, x :: xs => (x :: xs.take (w - 1)) :: chunksAux w fuel (xs.drop (w - 1))

/-- Groups a list into consecutive chunks of `w` elements; the final chunk
may be shorter.  This is the grouping performed by `padded_batch`. -/
def chunks (w : Nat) (l : List α) : List (List α) :=
  chunksAux w l.length l

/-- Embedding of `batch_dataset` (src/opennmt/utils/data.py:107-119):
`dataset.padded_batch(batch_size, ...)` groups `batch_size` consecutive
elements per batch.  Padding each field to the in-batch maximum shape only
changes the tensor layout inside a batch, so a batch is modelled as the list
of its examples. -/
def batch_dataset (batch_size : Nat) (dataset : List α) : List (List α) :=
  chunks batch_size dataset

/-- Embedding of `filter_irregular_batches` (src/opennmt/utils/data.py:19-36).
For `multiple == 1` the transformation is the identity.  Otherwise the batch
size is the leading dimension of the first flattened field of the batch,
which equals the number of examples stacked in the batch, i.e. the length of
the batch as a list; batches whose size is not divisible by `multiple` are
filtered out. -/
def filter_irregular_batches (multiple : Nat) : List (List α) → List (List α) :=
  if multiple = 1 then fun dataset => dataset
  else fun dataset => dataset.filter (fun batch => batch.length % multiple = 0)

/-- Normalization of a length value to a list, from `_length_constraints`
(src/opennmt/utils/data.py:60-61): a non-list length becomes a singleton. -/
def pyLenToList : PyLen → List Int
  | .int n => [n]
  | .list ns => ns

/-- Normalization of a maximum-length value to a list of optional bounds,
from `_length_constraints` (src/opennmt/utils/data.py:62-63): `None` becomes
`[None]`, an integer becomes a singleton. -/
def pyMaxToList : PyMax → List (Option Int)
  | .unset => [none]
  | .int n => [some n]
  | .list ns => ns.map some

/-- Embedding of `_length_constraints` (src/opennmt/utils/data.py:58-71):
the lengths and maxima are normalized to lists, missing maxima are padded
with `None`, and for each position the constraints `0 < l` and, when a
maximum is set, `l <= maxlen` are collected. -/
def length_constraints (length : PyLen) (maximum_length : PyMax) : List Bool :=
  let ls := pyLenToList length
  let ms := pyMaxToList maximum_length
  let ms := ms ++ List.replicate (ls.length - ms.length) none
  (ls.zip ms).flatMap (fun p =>
    [decide (0 < p.1)] ++
      (match p.2 with
       | none => []
       | some maxlen => [decide (p.1 ≤ maxlen)]))

/-- Embedding of `_predicate` in `filter_examples_by_length`
(src/opennmt/utils/data.py:73-81).  The labels length function returns a
single integer (spec section 6: `labels_length_fn(labels) -> int`), the
features length function may return an integer or a list. -/
def length_filter_predicate (maximum_features_length maximum_labels_length : PyMax)
    (features_length_fn : Option (F → PyLen)) (labels_length_fn : Option (L → Int))
    (ex : F × L) : Bool :=
  let condF :=
    match features_length_fn with
    | some f => length_constraints (f ex.1) maximum_features_length
    | none => []
  let condL :=
    match labels_length_fn with
    | some g => length_constraints (.int (g ex.2)) maximum_labels_length
    | none => []
  (condF ++ condL).all (fun b => b)

/-- Embedding of `filter_examples_by_length` (src/opennmt/utils/data.py:38-83):
identity when both length functions are unset, otherwise a filter by
`length_filter_predicate`. -/
def filter_examples_by_length (maximum_features_length maximum_labels_length : PyMax)
    (features_length_fn : Option (F → PyLen)) (labels_length_fn : Option (L → Int)) :
    List (F × L) → List (F × L) :=
  if features_length_fn.isNone && labels_length_fn.isNone then fun dataset => dataset
  else fun dataset =>
    dataset.filter (length_filter_predicate maximum_features_length maximum_labels_length
      features_length_fn labels_length_fn)

/-- Spec-worded retention condition for one side, following spec section 4.3:
after normalizing the observed length(s) and configured maximum(s) to lists
and padding missing maxima with no-constraint, every position must satisfy
`0 < length` and, when a maximum is present at that position, the length must
not exceed it.  Written from the words of the spec for comparison with the
source-derived `length_constraints`. -/
def side_retained_spec (length : PyLen) (maximum_length : PyMax) : Prop :=
  let ls := pyLenToList length
  let ms := pyMaxToList maximum_length ++
    List.replicate (ls.length - (pyMaxToList maximum_length).length) none
  ∀ i (h : i < ls.length),
    0 < ls.get ⟨i, h⟩ ∧
      (match ms.getD i none with
       | none => True
       | some maxlen => ls.get ⟨i, h⟩ ≤ maxlen)

/-- Spec-worded retention condition for an example, following spec section
4.3: all per-side constraints must hold for every side whose length function
is set. -/
def retained_spec (maximum_features_length maximum_labels_length : PyMax)
    (features_length_fn : Option (F → PyLen)) (labels_length_fn : Option (L → Int))
    (ex : F × L) : Prop :=
  (∀ f, features_length_fn = some f →
    side_retained_spec (f ex.1) maximum_features_length) ∧
  (∀ g, labels_length_fn = some g →
    side_retained_spec (.int (g ex.2)) maximum_labels_length)

/-- Ceiling division as written in `random_shard`
(src/opennmt/utils/data.py:95): `-(-dataset_size // shard_size)`. -/
def ceil_div (a b : Nat) : Nat := (a + b - 1) / b

/-- Embedding of the offsets computed in `random_shard`
(src/opennmt/utils/data.py:96):
`np.linspace(0, dataset_size, num=num_shards, endpoint=False, dtype=np.int64)`
produces the values `trunc(i * dataset_size / num_shards)`; with the exact
rational step this is `i * dataset_size / num_shards` in integer floor
division, which the floating-point computation reproduces for the inputs
considered here (in particular whenever the step is an exact integer). -/
def linspace_offsets (dataset_size num_shards : Nat) : List Nat :=
  (List.range num_shards).map (fun i => i * dataset_size / num_shards)

/-- Embedding of `random_shard` (src/opennmt/utils/data.py:85-105): the
offsets are computed from the ceiling-divided shard count, shuffled (the
permutation chosen by `dataset.shuffle` is passed explicitly as `shuffle`),
and each offset emits the next `shard_size` elements via skip-then-take. -/
def random_shard (shard_size dataset_size : Nat) (shuffle : List Nat → List Nat)
    (dataset : List α) : List α :=
  let num_shards := ceil_div dataset_size shard_size
  let offsets := linspace_offsets dataset_size num_shards
  (shuffle offsets).flatMap (fun offset => (dataset.drop offset).take shard_size)

/-- Embedding of `_key_func` in `batch_parallel_dataset`
(src/opennmt/utils/data.py:164-175): a list-valued features length is
discarded, the bucket id starts at 0 and is maximized with each available
length floor-divided by the bucket width, and the result is cast to a
non-negative integer key. -/
def key_func (features_length_fn : Option (F → PyLen)) (labels_length_fn : Option (L → Int))
    (bucket_width : Nat) (ex : F × L) : Nat :=
  let features_length : Option Int :=
    match features_length_fn with
    | none => none
    | some f =>
      match f ex.1 with
      | .int n => some n
      | .list _ => none
  let labels_length : Option Int := labels_length_fn.map (fun g => g ex.2)
  let bucket_id : Int := 0
  let bucket_id : Int :=
    match features_length with
    | some n => max bucket_id (Int.fdiv n bucket_width)
    | none => bucket_id
  let bucket_id : Int :=
    match labels_length with
    | some n => max bucket_id (Int.fdiv n bucket_width)
    | none => bucket_id
  bucket_id.toNat

/-- Effective length of an example: the quantity whose floor division by the
bucket width gives the bucket key, i.e. the key computed with bucket width 1
(spec section 3: the maximum of the available feature and label lengths,
feature length ignored when list-valued). -/
def effective_length (features_length_fn : Option (F → PyLen))
    (labels_length_fn : Option (L → Int)) (ex : F × L) : Nat :=
  key_func features_length_fn labels_length_fn 1 ex

/-- Embedding of `_window_size_func` in `batch_parallel_dataset`
(src/opennmt/utils/data.py:180-187), with the batch size scaling
`batch_size * batch_multiplier` of line 162 applied first.  A zero
denominator in the floor division is a runtime error, modelled by `none`. -/
def window_size_func (batch_size batch_multiplier batch_size_multiple bucket_width : Nat)
    (key : Nat) : Option Nat :=
  let scaled := batch_size * batch_multiplier
  let key := if 1 < bucket_width then key + 1 else key
  if key * bucket_width = 0 then none
  else
    let size := scaled / (key * bucket_width)
    let required_multiple := batch_multiplier * batch_size_multiple
    let size :=
      if 1 < required_multiple then size + required_multiple - size % required_multiple
      else size
    some (max size required_multiple)

/-- Pending buffer of a key in the `group_by_window` scheduler state: the
empty list when the key has no queue yet. -/
def gbwFind [DecidableEq κ] (st : List (κ × List α)) (k : κ) : List α :=
  match st.find? (fun p => decide (p.1 = k)) with
  | some p => p.2
  | none => []

/-- Updates the buffer of key `k` in the scheduler state, appending a new
entry when the key is not present yet. -/
def gbwSet [DecidableEq κ] (st : List (κ × List α)) (k : κ) (v : List α) :
    List (κ × List α) :=
  if st.any (fun p => decide (p.1 = k)) then
    st.map (fun p => if p.1 = k then (k, v) else p)
  else st ++ [(k, v)]

/-- Per-key-queue scheduler embedding `tf.data.experimental.group_by_window`
(spec section 9): each element is routed to the queue of its key; when a
queue reaches the window size of its key the window is emitted; at end of
stream all non-empty queues are flushed in key first-use order.  A window
size request that fails (division by zero in `_window_size_func`) aborts
with `none`. -/
def group_by_window_aux [DecidableEq κ] (keyFunc : α → κ) (windowSize : κ → Option Nat) :
    List α → List (κ × List α) → Option (List (List α))
  | [], st => some ((st.map Prod.snd).filter (fun b => !b.isEmpty))
  | x :: rest, st =>
    let k := keyFunc x
    match windowSize k with
    | none => none
    | some w =>
      let buf := gbwFind st k ++ [x]
      if w ≤ buf.length then
        (group_by_window_aux keyFunc windowSize rest (gbwSet st k [])).map
          (fun out => buf :: out)
      else group_by_window_aux keyFunc windowSize rest (gbwSet st k buf)

/-- The `group_by_window` scheduler started from the empty state. -/
def group_by_window [DecidableEq κ] (keyFunc : α → κ) (windowSize : κ → Option Nat)
    (dataset : List α) : Option (List (List α)) :=
  group_by_window_aux keyFunc windowSize dataset []

/-- Embedding of `batch_parallel_dataset` (src/opennmt/utils/data.py:121-200).
The batch size is scaled by the multiplier (line 162).  With no bucket width
the transformation is plain batching; otherwise elements are grouped by
`_key_func` with a constant window size in "examples" mode and with
`_window_size_func` in "tokens" mode, each full or flushed window being
reduced by `batch_dataset` (line 177-178); any other batch type raises a
`ValueError` when the transformation is constructed.  The returned
transformation yields `none` when a window size computation divides by
zero. -/
def batch_parallel_dataset (batch_size : Nat) (batch_type : String)
    (batch_multiplier batch_size_multiple : Nat) (bucket_width : Option Nat)
    (features_length_fn : Option (F → PyLen)) (labels_length_fn : Option (L → Int)) :
    Except PipeErr (List (F × L) → Option (List (List (F × L)))) :=
  let scaled := batch_size * batch_multiplier
  match bucket_width with
  | none => .ok (fun dataset => some (batch_dataset scaled dataset))
  | some width =>
    if batch_type = "examples" then
      .ok (fun dataset =>
        (group_by_window (key_func features_length_fn labels_length_fn width)
            (fun _ => some scaled) dataset).map
          (fun windows => windows.flatMap (batch_dataset scaled)))
    else if batch_type = "tokens" then
      .ok (fun dataset =>
        (group_by_window (key_func features_length_fn labels_length_fn width)
            (window_size_func batch_size batch_multiplier batch_size_multiple width)
            dataset).map
          (fun windows => windows.flatMap (batch_dataset scaled)))
    else .error (.invalidConfig "Invalid batch type; should be examples or tokens")

/-- A dataset together with the repetition flag set by `dataset.repeat()`:
the finite list of produced items, cycled indefinitely when `repeated` is
true. -/
structure RDataset (α : Type u) where
  items : List α
  repeated : Bool
deriving DecidableEq

/-- The element of a repeatable dataset at position `n` of its output
stream: plain indexing for a single pass, cyclic indexing when repeated,
and no element at all when a repeated dataset has no items. -/
def RDataset.get (d : RDataset α) (n : Nat) : Option α :=
  if d.repeated then
    if d.items.isEmpty then none else d.items.get? (n % d.items.length)
  else d.items.get? n

/-- Embedding of `dataset.shard(num_shards, shard_index)` used in
`training_pipeline` (src/opennmt/utils/data.py:259): keeps the elements
whose position has residue `shard_index` modulo `num_shards`. -/
def shard_list (num_shards shard_index : Nat) (dataset : List α) : List α :=
  (dataset.enum.filter (fun p => p.1 % num_shards = shard_index)).map Prod.snd

/-- Embedding of `training_pipeline` (src/opennmt/utils/data.py:203-294).
The two random choices made by the pipeline are passed explicitly:
`shuffle_offsets` is the permutation drawn by the offset shuffle inside
`random_shard` and `shuffle_elems` the one drawn by `dataset.shuffle`
(the shuffle buffer size only shapes the distribution of that permutation,
not the set of possible outputs, so it is not otherwise interpreted).
Prefetching does not change the produced batches and is the identity here. -/
def training_pipeline (batch_size : Nat) (batch_type : String)
    (batch_multiplier batch_size_multiple : Nat)
    (process_fn : Option (F × L → F × L)) (bucket_width : Option Nat)
    (features_length_fn : Option (F → PyLen)) (labels_length_fn : Option (L → Int))
    (maximum_features_length maximum_labels_length : PyMax)
    (single_pass : Bool) (dataset_size : Option Nat) (num_shards shard_index : Nat)
    (shuffle_buffer_size : Option Int)
    (shuffle_offsets : List Nat → List Nat)
    (shuffle_elems : List (F × L) → List (F × L))
    (dataset : List (F × L)) : Except PipeErr (RDataset (List (F × L))) :=
  let num_examples := dataset_size
  let dataset := if 1 < num_shards then shard_list num_shards shard_index dataset else dataset
  let num_examples :=
    if 1 < num_shards then num_examples.map (fun n => n / num_shards) else num_examples
  let dataset :=
    match shuffle_buffer_size with
    | none => dataset
    | some sbs =>
      if sbs = 0 then dataset
      else
        let dataset :=
          match num_examples with
          | none => dataset
          | some n =>
            if sbs < 0 || (n : Int) < sbs then dataset
            else if sbs < (n : Int) then
              random_shard sbs.toNat n shuffle_offsets dataset
            else dataset
        shuffle_elems dataset
  let dataset :=
    match process_fn with
    | some f => dataset.map f
    | none => dataset
  let dataset := filter_examples_by_length maximum_features_length maximum_labels_length
    features_length_fn labels_length_fn dataset
  match batch_parallel_dataset batch_size batch_type batch_multiplier batch_size_multiple
      bucket_width features_length_fn labels_length_fn with
  | .error e => .error e
  | .ok transform =>
    match transform dataset with
    | none => .error .divisionByZero
    | some batches =>
      let batches := filter_irregular_batches batch_multiplier batches
      .ok { items := batches, repeated := !single_pass }

/-- A value stored under a key of a dict element: either an opaque tensor
value of the dataset or the integer index injected by the inference
pipeline. -/
inductive FieldVal (V : Type u) where
  | val (v : V)
  | idx (n : Nat)
deriving DecidableEq

/-- A Python dict element: an insertion-ordered association list from field
names to values. -/
abbrev DictElem (V : Type u) := List (String × FieldVal V)

/-- A dataset element as seen by the inference pipeline: a dict of fields or
a bare tensor. -/
inductive PyStruct (V : Type u) where
  | dict (d : DictElem V)
  | tensor (v : V)
deriving DecidableEq

/-- The dict carried by an element, when it is a dict. -/
def PyStruct.asDict : PyStruct V → Option (DictElem V)
  | .dict d => some d
  | .tensor _ => none

/-- Python dict assignment `x[k] = v`: overwrites the value of an existing
key in place, otherwise appends the new key at the end. -/
def set_item (d : DictElem V) (k : String) (v : FieldVal V) : DictElem V :=
  if d.any (fun p => decide (p.1 = k)) then
    d.map (fun p => if p.1 = k then (k, v) else p)
  else d ++ [(k, v)]

/-- Python dict lookup `x[k]` as an optional value. -/
def get_item (d : DictElem V) (k : String) : Option (FieldVal V) :=
  (d.find? (fun p => decide (p.1 = k))).map Prod.snd

/-- Embedding of `_inject_index` in `inference_pipeline`
(src/opennmt/utils/data.py:327-329): stores the enumeration index of the
element under the key "index". -/
def inject_index (index : Nat) (x : DictElem V) : DictElem V :=
  set_item x "index" (.idx index)

/-- Embedding of `_get_output_shapes` (src/opennmt/utils/data.py:7-17) as
used by `inference_pipeline`: peeks at the first element and returns its
structural shape (field values erased); taking an element from an empty
dataset fails. -/
def get_output_shapes (dataset : List (PyStruct V)) : Except PipeErr (PyStruct Unit) :=
  match dataset.head? with
  | none => .error .emptySource
  | some (.dict d) => .ok (.dict (d.map (fun p => (p.1, .val ()))))
  | some (.tensor _) => .ok (.tensor ())

/-- Embedding of `_key_func` in `inference_pipeline`
(src/opennmt/utils/data.py:331-336): the bucket id starts at 0 and, for a
non-list length, is maximized with the length floor-divided by the bucket
width. -/
def inf_key_func (length_fn : PyStruct V → PyLen) (bucket_width : Int)
    (x : DictElem V) : Int :=
  match length_fn (.dict x) with
  | .list _ => 0
  | .int n => max 0 (Int.fdiv n bucket_width)

/-- The index value injected into an element of the bucketed inference
pipeline, used when restoring the original order. -/
def get_index (x : PyStruct V) : Option Nat :=
  match x with
  | .dict d =>
    match get_item d "index" with
    | some (.idx n) => some n
    | _ => none
  | .tensor _ => none

/-- Sorting a list of emitted elements by their injected "index" value,
as a caller restoring the original order would. -/
def sort_by_index (l : List (PyStruct V)) : List (PyStruct V) :=
  List.insertionSort (fun a b => (get_index a).getD 0 ≤ (get_index b).getD 0) l

/-- Removal of the injected "index" field from an element. -/
def drop_index (x : PyStruct V) : PyStruct V :=
  match x with
  | .dict d => .dict (d.filter (fun p => decide (p.1 ≠ "index")))
  | .tensor v => .tensor v

/-- Embedding of `inference_pipeline` (src/opennmt/utils/data.py:296-358).
With a positive bucket width, a missing length function and a non-dict
element structure are construction-time `ValueError`s; otherwise the
elements are enumerated, tagged under "index", grouped by length bucket
with constant window size `batch_size`, and each window is batched by
`batch_dataset`.  Without bucketing the dataset is batched flat.  The
`typeError` case models indexing a non-dict element past the structure
check, which cannot happen for the homogeneous element types of TensorFlow
datasets.  Prefetching is the identity on contents. -/
def inference_pipeline (batch_size : Nat)
    (process_fn : Option (PyStruct V → PyStruct V))
    (bucket_width : Option Int) (length_fn : Option (PyStruct V → PyLen))
    (dataset : List (PyStruct V)) : Except PipeErr (List (List (PyStruct V))) :=
  let dataset :=
    match process_fn with
    | some f => dataset.map f
    | none => dataset
  match bucket_width with
  | some width =>
    if 0 < width then
      match length_fn with
      | none => .error (.invalidConfig "length_fn is required when reordering by length")
      | some lf =>
        match get_output_shapes dataset with
        | .error e => .error e
        | .ok (.tensor _) =>
          .error (.invalidConfig "Reordering by length expects dataset elements to be Python dicts")
        | .ok (.dict _) =>
          match dataset.mapM PyStruct.asDict with
          | none => .error .typeError
          | some delems =>
            let tagged := delems.enum.map (fun p => inject_index p.1 p.2)
            match group_by_window (inf_key_func lf width) (fun _ => some batch_size) tagged with
            | none => .error .divisionByZero
            | some windows =>
              .ok ((windows.flatMap (batch_dataset batch_size)).map
                (fun batch => batch.map PyStruct.dict))
    else .ok (batch_dataset batch_size dataset)
  | none => .ok (batch_dataset batch_size dataset)

/-! ### Lemmas about `chunks` -/

theorem chunksAux_fuel_irrelevant (w : Nat) :
    ∀ (n m : Nat) (l : List α), l.length ≤ n → l.length ≤ m →
      chunksAux w n l = chunksAux w m l := by
  intro n
  induction n with
  | zero =>
    intro m l hn _
    cases l with
    | nil => cases m <;> rfl
    | cons x xs => simp at hn
  | succ n ih =>
    intro m l hn hm
    cases l with
    | nil => cases m <;> rfl
    | cons x xs =>
      cases m with
      | zero => simp at hm
      | succ m =>
        simp only [chunksAux]
        have hd : (xs.drop (w - 1)).length ≤ xs.length := by
          simp [List.length_drop]
        simp only [List.length_cons] at hn hm
        rw [ih m (xs.drop (w - 1)) (by omega) (by omega)]

theorem chunks_nil (w : Nat) : chunks w ([] : List α) = [] := rfl

theorem chunks_cons (w : Nat) (x : α) (xs : List α) :
    chunks w (x :: xs) = (x :: xs.take (w - 1)) :: chunks w (xs.drop (w - 1)) := by
  simp only [chunks, List.length_cons, chunksAux]
  rw [chunksAux_fuel_irrelevant w xs.length (xs.drop (w - 1)).length (xs.drop (w - 1))
    (by simp [List.length_drop]) (le_refl _)]

theorem chunks_flatten (w : Nat) : ∀ (l : List α), (chunks w l).flatten = l
  | [] => rfl
  | x :: xs => by
    rw [chunks_cons]
    simp only [List.flatten_cons]
    rw [chunks_flatten w (xs.drop (w - 1))]
    simp [List.take_append_drop]
termination_by l => l.length
decreasing_by simp [List.length_drop]; omega

theorem chunks_append_of_length (w : Nat) (l rest : List α) (hl : l.length = w)
    (hw : 0 < w) : chunks w (l ++ rest) = l :: chunks w rest := by
  cases l with
  | nil => simp at hl; omega
  | cons y ys =>
    simp only [List.cons_append, chunks_cons]
    have hys : ys.length = w - 1 := by simp at hl; omega
    rw [← hys, List.take_left, List.drop_left]

theorem chunks_of_short (w : Nat) (l : List α) (h0 : l ≠ []) (hw : l.length ≤ w) :
    chunks w l = [l] := by
  cases l with
  | nil => exact absurd rfl h0
  | cons y ys =>
    rw [chunks_cons]
    have h1 : ys.length ≤ w - 1 := by simp at hw ⊢; omega
    rw [List.take_of_length_le h1, List.drop_eq_nil_of_le (le_trans h1 (by omega))]
    rfl

/-! ### Lemmas about the `group_by_window` scheduler -/

theorem gbwFind_singleton [DecidableEq κ] (c : κ) (buf : List α) :
    gbwFind [(c, buf)] c = buf := by
  simp [gbwFind, List.find?]

theorem gbwSet_singleton [DecidableEq κ] (c : κ) (buf v : List α) :
    gbwSet [(c, buf)] c v = [(c, v)] := by
  simp [gbwSet, List.any_cons]

theorem group_by_window_aux_const [DecidableEq κ] (keyFunc : α → κ) (c : κ)
    (hc : ∀ x, keyFunc x = c) (w : Nat) (hw : 0 < w) :
    ∀ (xs buf : List α), buf.length < w →
      group_by_window_aux keyFunc (fun _ => some w) xs [(c, buf)] =
        some (chunks w (buf ++ xs)) := by
  intro xs
  induction xs with
  | nil =>
    intro buf hbuf
    simp only [group_by_window_aux, List.map_cons, List.map_nil, List.append_nil]
    cases buf with
    | nil => simp [chunks_nil, List.filter]
    | cons b bs =>
      rw [chunks_of_short w (b :: bs) (by simp) (by omega)]
      simp [List.filter]
  | cons x rest ih =>
    intro buf hbuf
    simp only [group_by_window_aux, hc x, gbwFind_singleton, gbwSet_singleton]
    by_cases hfull : w ≤ (buf ++ [x]).length
    · rw [if_pos hfull]
      have hlen : (buf ++ [x]).length = w := by simp at hfull ⊢; omega
      rw [ih [] (by simpa using hw)]
      rw [show buf ++ x :: rest = (buf ++ [x]) ++ rest by simp]
      rw [chunks_append_of_length w (buf ++ [x]) rest hlen hw]
      simp
    · rw [if_neg hfull]
      have : (buf ++ [x]).length < w := by omega
      rw [ih (buf ++ [x]) this]
      simp

theorem group_by_window_aux_empty_start [DecidableEq κ] (keyFunc : α → κ) (c : κ)
    (hc : ∀ x, keyFunc x = c) (wsize : κ → Option Nat) (xs : List α) :
    group_by_window_aux keyFunc wsize xs [] =
      group_by_window_aux keyFunc wsize xs [(c, [])] := by
  cases xs with
  | nil => simp [group_by_window_aux, List.filter]
  | cons x rest =>
    simp only [group_by_window_aux, hc x, gbwFind_singleton, gbwSet_singleton]
    have hfind : gbwFind ([] : List (κ × List α)) c = [] := rfl
    rw [hfind]
    have hset : ∀ v, gbwSet ([] : List (κ × List α)) c v = [(c, v)] := by
      intro v; simp [gbwSet]
    rw [hset, hset]

theorem group_by_window_const [DecidableEq κ] (keyFunc : α → κ) (c : κ)
    (hc : ∀ x, keyFunc x = c) (w : Nat) (hw : 0 < w) (xs : List α) :
    group_by_window keyFunc (fun _ => some w) xs = some (chunks w xs) := by
  rw [group_by_window, group_by_window_aux_empty_start keyFunc c hc _ xs,
    group_by_window_aux_const keyFunc c hc w hw xs [] (by simpa using hw)]
  rfl

theorem gbwSet_cons_ne [DecidableEq κ] (k0 k : κ) (b0 v : List α)
    (st : List (κ × List α)) (hne : k0 ≠ k) :
    gbwSet ((k0, b0) :: st) k v = (k0, b0) :: gbwSet st k v := by
  by_cases h : st.any (fun p => decide (p.1 = k)) = true
  · simp [gbwSet, List.any_cons, hne, h]
  · simp [gbwSet, List.any_cons, hne, h]

theorem gbwSet_cons_eq [DecidableEq κ] (k : κ) (b0 v : List α)
    (st : List (κ × List α)) (hout : k ∉ st.map Prod.fst) :
    gbwSet ((k, b0) :: st) k v = (k, v) :: st := by
  have hmap : st.map (fun p => if p.1 = k then (k, v) else p) = st.map id := by
    apply List.map_congr_left
    intro p hp
    have hpk : p.1 ≠ k := by
      intro hpk
      exact hout (hpk ▸ List.mem_map_of_mem Prod.fst hp)
    simp [hpk]
  simp [gbwSet, List.any_cons, hmap]

theorem gbwFind_cons_ne [DecidableEq κ] (k0 k : κ) (b0 : List α)
    (st : List (κ × List α)) (hne : k0 ≠ k) :
    gbwFind ((k0, b0) :: st) k = gbwFind st k := by
  simp [gbwFind, List.find?, hne]

theorem filter_ne_key_of_not_mem [DecidableEq κ] {β : Type u} (k : κ) (st : List (κ × β))
    (hout : k ∉ st.map Prod.fst) :
    st.filter (fun p => decide (p.1 ≠ k)) = st := by
  apply List.filter_eq_self.mpr
  intro p hp
  simp only [decide_eq_true_eq]
  intro hpk
  exact hout (hpk ▸ List.mem_map_of_mem Prod.fst hp)

theorem gbwFind_flatten_perm [DecidableEq κ] (k : κ) :
    ∀ (st : List (κ × List α)), (st.map Prod.fst).Nodup →
      ((st.map Prod.snd).flatten).Perm
        (gbwFind st k ++ ((st.filter (fun p => decide (p.1 ≠ k))).map Prod.snd).flatten) := by
  intro st
  induction st with
  | nil => intro _; rfl
  | cons p st ih =>
    intro hnd
    obtain ⟨k0, b0⟩ := p
    simp only [List.map_cons, List.nodup_cons] at hnd
    by_cases hk : k0 = k
    · subst hk
      have h1 : gbwFind ((k0, b0) :: st) k0 = b0 := by simp [gbwFind, List.find?]
      have h2 : ((k0, b0) :: st).filter (fun p => decide (p.1 ≠ k0)) = st := by
        rw [List.filter_cons_of_neg (by simp), filter_ne_key_of_not_mem k0 st hnd.1]
      rw [h1, h2]
      rfl
    · rw [gbwFind_cons_ne k0 k b0 st hk, List.filter_cons_of_pos (by simp [hk])]
      have h := ih hnd.2
      simp only [List.map_cons, List.flatten_cons]
      rw [← Multiset.coe_eq_coe] at h ⊢
      simp only [← Multiset.coe_add] at h ⊢
      rw [h]
      abel

theorem gbwSet_flatten_perm [DecidableEq κ] (k : κ) (v : List α) :
    ∀ (st : List (κ × List α)), (st.map Prod.fst).Nodup →
      (((gbwSet st k v).map Prod.snd).flatten).Perm
        (v ++ ((st.filter (fun p => decide (p.1 ≠ k))).map Prod.snd).flatten) := by
  intro st
  induction st with
  | nil => simp [gbwSet]
  | cons p st ih =>
    intro hnd
    obtain ⟨k0, b0⟩ := p
    simp only [List.map_cons, List.nodup_cons] at hnd
    by_cases hk : k0 = k
    · subst hk
      rw [gbwSet_cons_eq k0 b0 v st hnd.1,
        List.filter_cons_of_neg (by simp), filter_ne_key_of_not_mem k0 st hnd.1]
      rfl
    · rw [gbwSet_cons_ne k0 k b0 v st hk, List.filter_cons_of_pos (by simp [hk])]
      have h := ih hnd.2
      simp only [List.map_cons, List.flatten_cons]
      rw [← Multiset.coe_eq_coe] at h ⊢
      simp only [← Multiset.coe_add] at h ⊢
      rw [h]
      abel

theorem gbwSet_keys_nodup [DecidableEq κ] (k : κ) (v : List α)
    (st : List (κ × List α)) (hnd : (st.map Prod.fst).Nodup) :
    ((gbwSet st k v).map Prod.fst).Nodup := by
  by_cases h : st.any (fun p => decide (p.1 = k)) = true
  · rw [gbwSet, if_pos h]
    have : (st.map (fun p => if p.1 = k then (k, v) else p)).map Prod.fst = st.map Prod.fst := by
      rw [List.map_map]
      apply List.map_congr_left
      intro p _
      by_cases hpk : p.1 = k
      · simp [hpk]
      · simp [hpk]
    rw [this]
    exact hnd
  · rw [gbwSet, if_neg h]
    simp only [List.map_append, List.map_cons, List.map_nil]
    rw [List.nodup_append]
    refine ⟨hnd, List.nodup_singleton k, ?_⟩
    intro a ha hb
    simp only [List.mem_singleton] at hb
    subst hb
    simp only [List.any_eq_true, decide_eq_true_eq] at h
    obtain ⟨p, hp, hpk⟩ := List.exists_of_mem_map ha
    exact h ⟨p, hp, hpk⟩

theorem group_by_window_aux_flatten_perm [DecidableEq κ] (keyFunc : α → κ)
    (windowSize : κ → Option Nat) :
    ∀ (xs : List α) (st : List (κ × List α)) (out : List (List α)),
      (st.map Prod.fst).Nodup →
      group_by_window_aux keyFunc windowSize xs st = some out →
      (out.flatten).Perm ((st.map Prod.snd).flatten ++ xs) := by
  intro xs
  induction xs with
  | nil =>
    intro st out _ hrun
    simp only [group_by_window_aux, Option.some_inj] at hrun
    subst hrun
    rw [List.flatten_filter_not_isEmpty, List.append_nil]
  | cons x rest ih =>
    intro st out hnd hrun
    simp only [group_by_window_aux] at hrun
    cases hws : windowSize (keyFunc x) with
    | none => rw [hws] at hrun; exact absurd hrun (by simp)
    | some w =>
      rw [hws] at hrun
      simp only [] at hrun
      by_cases hfull : w ≤ (gbwFind st (keyFunc x) ++ [x]).length
      · rw [if_pos hfull] at hrun
        cases hrec : group_by_window_aux keyFunc windowSize rest (gbwSet st (keyFunc x) []) with
        | none => rw [hrec] at hrun; exact absurd hrun (by simp)
        | some out1 =>
          rw [hrec] at hrun
          simp only [Option.map_some', Option.some_inj] at hrun
          subst hrun
          have h1 := ih (gbwSet st (keyFunc x) []) out1
            (gbwSet_keys_nodup (keyFunc x) [] st hnd) hrec
          have h2 := gbwSet_flatten_perm (keyFunc x) ([] : List α) st hnd
          have h3 := gbwFind_flatten_perm (keyFunc x) st hnd
          simp only [List.flatten_cons]
          rw [← Multiset.coe_eq_coe] at h1 h2 h3 ⊢
          simp only [← Multiset.coe_add] at h1 h2 h3 ⊢
          rw [show ((x :: rest : List α) : Multiset α) = (([x] ++ rest : List α) : Multiset α)
            by simp, ← Multiset.coe_add]
          rw [h1, h2, h3]
          simp only [Multiset.coe_nil]
          abel
      · rw [if_neg hfull] at hrun
        have h1 := ih (gbwSet st (keyFunc x) (gbwFind st (keyFunc x) ++ [x])) out
          (gbwSet_keys_nodup (keyFunc x) _ st hnd) hrun
        have h2 := gbwSet_flatten_perm (keyFunc x) (gbwFind st (keyFunc x) ++ [x]) st hnd
        have h3 := gbwFind_flatten_perm (keyFunc x) st hnd
        rw [← Multiset.coe_eq_coe] at h1 h2 h3 ⊢
        simp only [← Multiset.coe_add] at h1 h2 h3 ⊢
        rw [show ((x :: rest : List α) : Multiset α) = (([x] ++ rest : List α) : Multiset α)
          by simp, ← Multiset.coe_add]
        rw [h1, h2, h3]
        abel

/-- The flattened output of `group_by_window` is a permutation of its
input. -/
theorem group_by_window_flatten_perm [DecidableEq κ] (keyFunc : α → κ)
    (windowSize : κ → Option Nat) (xs : List α) (out : List (List α))
    (hrun : group_by_window keyFunc windowSize xs = some out) :
    (out.flatten).Perm xs :=
  group_by_window_aux_flatten_perm keyFunc windowSize xs [] out (by simp) hrun

/-- The scheduler never fails when every requested window size is
defined. -/
theorem group_by_window_aux_isSome [DecidableEq κ] (keyFunc : α → κ)
    (windowSize : κ → Option Nat) (hws : ∀ k, (windowSize k).isSome = true) :
    ∀ (xs : List α) (st : List (κ × List α)),
      (group_by_window_aux keyFunc windowSize xs st).isSome = true := by
  intro xs
  induction xs with
  | nil => intro st; simp [group_by_window_aux]
  | cons x rest ih =>
    intro st
    simp only [group_by_window_aux]
    cases hw : windowSize (keyFunc x) with
    | none => have := hws (keyFunc x); rw [hw] at this; exact absurd this (by simp)
    | some w =>
      simp only []
      by_cases hfull : w ≤ (gbwFind st (keyFunc x) ++ [x]).length
      · rw [if_pos hfull]
        have := ih (gbwSet st (keyFunc x) [])
        cases hrec : group_by_window_aux keyFunc windowSize rest (gbwSet st (keyFunc x) []) with
        | none => rw [hrec] at this; exact absurd this (by simp)
        | some out1 => simp [hrec]
      · rw [if_neg hfull]
        exact ih (gbwSet st (keyFunc x) (gbwFind st (keyFunc x) ++ [x]))

/-! ### Lemmas about the length filter -/

theorem zip_constraints_all_iff :
    ∀ (ls : List Int) (ms : List (Option Int)), ls.length ≤ ms.length →
      (((ls.zip ms).flatMap (fun p =>
        [decide (0 < p.1)] ++
          (match p.2 with
           | none => []
           | some maxlen => [decide (p.1 ≤ maxlen)]))).all (fun b => b) = true ↔
        ∀ i (h : i < ls.length),
          0 < ls.get ⟨i, h⟩ ∧
            (match ms.getD i none with
             | none => True
             | some maxlen => ls.get ⟨i, h⟩ ≤ maxlen)) := by
  intro ls
  induction ls with
  | nil =>
    intro ms _
    constructor
    · intro _ i h
      exact absurd h (Nat.not_lt_zero i)
    · intro _
      rfl
  | cons l ls ih =>
    intro ms hlen
    cases ms with
    | nil => simp at hlen
    | cons m ms =>
      have ihm := ih ms (by simp at hlen; omega)
      cases m with
      | none =>
        simp only [List.zip_cons_cons, List.flatMap_cons, List.all_append,
          List.append_nil, List.all_cons, List.all_nil, Bool.and_true,
          Bool.and_eq_true, decide_eq_true_eq]
        rw [ihm]
        constructor
        · rintro ⟨h0, htail⟩ i h
          cases i with
          | zero => exact ⟨h0, trivial⟩
          | succ i =>
            simp only [List.get_cons_succ, List.getD_cons_succ]
            exact htail i (by simp at h; omega)
        · intro hall
          refine ⟨(hall 0 (by simp)).1, ?_⟩
          intro i h
          have := hall (i + 1) (by simp; omega)
          simpa only [List.get_cons_succ, List.getD_cons_succ] using this
      | some mx =>
        simp only [List.zip_cons_cons, List.flatMap_cons, List.all_append,
          List.all_cons, List.all_nil, Bool.and_true, Bool.and_eq_true,
          decide_eq_true_eq]
        rw [ihm]
        constructor
        · rintro ⟨⟨h0, h1⟩, htail⟩ i h
          cases i with
          | zero => exact ⟨h0, h1⟩
          | succ i =>
            simp only [List.get_cons_succ, List.getD_cons_succ]
            exact htail i (by simp at h; omega)
        · intro hall
          refine ⟨⟨(hall 0 (by simp)).1, (hall 0 (by simp)).2⟩, ?_⟩
          intro i h
          have := hall (i + 1) (by simp; omega)
          simpa only [List.get_cons_succ, List.getD_cons_succ] using this

theorem length_constraints_all_iff (len : PyLen) (mx : PyMax) :
    (length_constraints len mx).all (fun b => b) = true ↔ side_retained_spec len mx := by
  apply zip_constraints_all_iff
  simp only [List.length_append, List.length_replicate]
  omega

theorem length_filter_predicate_iff_retained (maxF maxL : PyMax)
    (ffn : Option (F → PyLen)) (lfn : Option (L → Int)) (ex : F × L) :
    length_filter_predicate maxF maxL ffn lfn ex = true ↔
      retained_spec maxF maxL ffn lfn ex := by
  cases ffn <;> cases lfn <;>
    simp only [length_filter_predicate, retained_spec, List.nil_append, List.append_nil,
      List.all_append, Bool.and_eq_true, length_constraints_all_iff, Option.some.injEq,
      forall_eq'] <;>
    simp

/-! ### Sorting by distinct keys -/

theorem perm_sorted_strict_eq (f : α → Nat) :
    ∀ (l m : List α), l.Perm m →
      l.Pairwise (fun a b => f a < f b) →
      m.Pairwise (fun a b => f a ≤ f b) → m = l := by
  intro l m hp hl hm
  have hne_l : l.Pairwise (fun a b => f a ≠ f b) :=
    hl.imp (fun h => Nat.ne_of_lt h)
  have hne_m : m.Pairwise (fun a b => f a ≠ f b) :=
    (hp.pairwise_iff (fun h => (Ne.symm h)) ).mp hne_l
  have hm_strict : m.Pairwise (fun a b => f a < f b) :=
    (hm.and hne_m).imp (fun h => Nat.lt_of_le_of_ne h.1 h.2)
  haveI : IsAntisymm α (fun a b => f a < f b) :=
    ⟨fun a b h1 h2 => absurd (Nat.lt_trans h1 h2) (Nat.lt_irrefl _)⟩
  exact (List.eq_of_perm_of_sorted hp hl hm_strict).symm

/-! ### Range decomposition lemmas -/

theorem drop_range_take (o S N : Nat) (h : o + S ≤ N) :
    ((List.range N).drop o).take S = List.range' o S := by
  have happ := List.range'_append 0 o (N - o) 1
  simp only [Nat.one_mul, Nat.zero_add] at happ
  rw [show N - o + o = N from by omega] at happ
  rw [List.range_eq_range', ← happ,
    List.drop_left' (by simp [List.length_range'])]
  have happ2 := List.range'_append o S (N - o - S) 1
  simp only [Nat.one_mul] at happ2
  rw [show N - o - S + S = N - o from by omega] at happ2
  rw [← happ2, List.take_left' (by simp [List.length_range'])]

theorem flatten_consecutive_runs (S : Nat) :
    ∀ (q : Nat), ((List.range q).map (fun i => List.range' (i * S) S)).flatten =
      List.range (q * S) := by
  intro q
  induction q with
  | zero => simp
  | succ q ih =>
    rw [List.range_succ, List.map_append, List.flatten_append, ih]
    simp only [List.map_cons, List.map_nil, List.flatten_cons, List.flatten_nil,
      List.append_nil]
    have happ := List.range'_append 0 (q * S) S 1
    simp only [Nat.one_mul, Nat.zero_add] at happ
    rw [show S + q * S = (q + 1) * S from by ring] at happ
    rw [List.range_eq_range', List.range_eq_range', happ]

/-! ### Dict item lemmas -/

theorem find_set_map (k : String) (v : FieldVal V) :
    ∀ (d : DictElem V),
      (d.map (fun p => if p.1 = k then (k, v) else p)).find? (fun p => decide (p.1 = k)) =
        if d.any (fun p => decide (p.1 = k)) then some (k, v) else none := by
  intro d
  induction d with
  | nil => rfl
  | cons q d ih =>
    by_cases hq : q.1 = k
    · simp [List.find?_cons, hq]
    · simp only [List.map_cons, if_neg hq, List.find?_cons, decide_eq_false hq,
        List.any_cons, Bool.false_or]
      exact ih

theorem find_set_map_other (k k2 : String) (v : FieldVal V) (hne : k2 ≠ k) :
    ∀ (d : DictElem V),
      (d.map (fun p => if p.1 = k then (k, v) else p)).find? (fun p => decide (p.1 = k2)) =
        d.find? (fun p => decide (p.1 = k2)) := by
  intro d
  induction d with
  | nil => rfl
  | cons q d ih =>
    by_cases hq : q.1 = k
    · have h1 : ¬(k = k2) := fun h => hne h.symm
      have h2 : ¬(q.1 = k2) := fun h => hne (hq ▸ h).symm
      simp only [List.map_cons, if_pos hq, List.find?_cons, decide_eq_false h1,
        decide_eq_false h2]
      exact ih
    · simp only [List.map_cons, if_neg hq, List.find?_cons]
      cases hfind : decide (q.1 = k2) with
      | true => rfl
      | false => exact ih

theorem find_none_of_any_false (k : String) (d : DictElem V)
    (h : ¬d.any (fun p => decide (p.1 = k)) = true) :
    d.find? (fun p => decide (p.1 = k)) = none := by
  rw [List.find?_eq_none]
  intro p hp hpk
  exact h (List.any_eq_true.mpr ⟨p, hp, hpk⟩)

theorem get_item_set_item_same (d : DictElem V) (k : String) (v : FieldVal V) :
    get_item (set_item d k v) k = some v := by
  by_cases h : d.any (fun p => decide (p.1 = k)) = true
  · rw [set_item, if_pos h, get_item, find_set_map, if_pos h]
    rfl
  · rw [set_item, if_neg h, get_item, List.find?_append, find_none_of_any_false k d h]
    simp [List.find?_cons]

theorem get_item_set_item_other (d : DictElem V) (k k2 : String) (v : FieldVal V)
    (hne : k2 ≠ k) : get_item (set_item d k v) k2 = get_item d k2 := by
  by_cases h : d.any (fun p => decide (p.1 = k)) = true
  · rw [set_item, if_pos h, get_item, find_set_map_other k k2 v hne, get_item]
  · rw [set_item, if_neg h, get_item, List.find?_append, get_item]
    have : ([(k, v)] : DictElem V).find? (fun p => decide (p.1 = k2)) = none := by
      simp [List.find?_cons, decide_eq_false (fun hh : k = k2 => hne hh.symm)]
    rw [this]
    cases List.find? (fun p => decide (p.1 = k2)) d <;> rfl

theorem set_item_keys (d : DictElem V) (k : String) (v : FieldVal V) :
    (set_item d k v).map Prod.fst =
      if d.any (fun p => decide (p.1 = k)) then d.map Prod.fst
      else d.map Prod.fst ++ [k] := by
  by_cases h : d.any (fun p => decide (p.1 = k)) = true
  · rw [set_item, if_pos h, if_pos h, List.map_map]
    apply List.map_congr_left
    intro p _
    by_cases hp : p.1 = k
    · simp [hp]
    · simp [hp]
  · rw [set_item, if_neg h, if_neg (by simpa using h)]
    simp

theorem set_item_of_not_mem (d : DictElem V) (k : String) (v : FieldVal V)
    (h : k ∉ d.map Prod.fst) : set_item d k v = d ++ [(k, v)] := by
  have hany : ¬d.any (fun p => decide (p.1 = k)) = true := by
    simp only [List.any_eq_true, decide_eq_true_eq]
    rintro ⟨p, hp, hpk⟩
    exact h (hpk ▸ List.mem_map_of_mem Prod.fst hp)
  rw [set_item, if_neg hany]

/-! ### Claim theorems -/

/-- C7: `filter_irregular_batches(multiple)` is the identity transform when
`multiple == 1`; for every `multiple > 1`, applied to a stream of batches of
sizes `[s0..sn]`, it yields exactly the subsequence of batches whose size
satisfies `si mod multiple == 0`, preserving their relative order. -/
theorem claim_C7 {α : Type} (multiple : Nat) (batches : List (List α)) :
    filter_irregular_batches 1 batches = batches ∧
    (1 < multiple →
      filter_irregular_batches multiple batches =
        batches.filter (fun b => b.length % multiple = 0) ∧
      (filter_irregular_batches multiple batches).map List.length =
        (batches.map List.length).filter (fun s => s % multiple = 0)) := by
  constructor
  · simp [filter_irregular_batches]
  · intro hm
    have hne : multiple ≠ 1 := by omega
    refine ⟨by simp [filter_irregular_batches, hne], ?_⟩
    simp only [filter_irregular_batches, if_neg hne]
    rw [List.filter_map]
    rfl

/-- Witness for C7 at a concrete stream of batch sizes [1, 2, 3, 4] with
multiple 2. -/
theorem claim_C7_witness :
    filter_irregular_batches 2 [[0], [0, 1], [0, 1, 2], [0, 1, 2, 3]] =
      [[0, 1], [0, 1, 2, 3]] := by
  rw [((claim_C7 2 [[0], [0, 1], [0, 1, 2], [0, 1, 2, 3]]).2 (by decide)).1]
  decide

/-- C1, counterexample: with batch_size 5, batch_multiplier 2,
batch_size_multiple 1, bucket_width 5 and bucket key 0, the raw size
10 / (1 * 5) = 2 is already an exact multiple of the required multiple 2,
yet the code rounds it up to 4 instead of leaving it unchanged. -/
theorem claim_C1_counterexample :
    window_size_func 5 2 1 5 0 = some 4 ∧
    5 * 2 / ((0 + 1) * 5) = 2 ∧ 2 % (2 * 1) = 0 ∧
    window_size_func 5 2 1 5 0 ≠ some 2 := by decide

/-- C1, amended: for batch_type tokens the window size of bucket key `k` is
`raw = floor(batch_size * batch_multiplier / (kp * bucket_width))` with
`kp = k + 1` when `bucket_width > 1` (else `kp = k`), then, when
`m = batch_multiplier * batch_size_multiple > 1`, increased to the smallest
multiple of `m` STRICTLY greater than `raw` (an exact multiple is increased
by a full `m`), which is automatically at least `m`; when `m = 1` the raw
size is only clamped below at 1. -/
theorem le_mul_succ (m a : Nat) : m ≤ m * (a + 1) := by
  rw [Nat.mul_add, Nat.mul_one]
  omega

theorem round_up_exact (S m : Nat) (hm : 0 < m) :
    S + m - S % m = m * (S / m + 1) := by
  have h1 : S % m < m := Nat.mod_lt _ hm
  have h2 : m * (S / m) + S % m = S := Nat.div_add_mod S m
  rw [Nat.mul_add, Nat.mul_one]
  omega

theorem lt_round_up (S m : Nat) (hm : 0 < m) : S < m * (S / m + 1) := by
  have h1 : S % m < m := Nat.mod_lt _ hm
  have h2 : m * (S / m) + S % m = S := Nat.div_add_mod S m
  rw [Nat.mul_add, Nat.mul_one]
  omega

theorem round_up_le (S m : Nat) (_hm : 0 < m) : m * (S / m + 1) ≤ S + m := by
  have h2 : m * (S / m) + S % m = S := Nat.div_add_mod S m
  rw [Nat.mul_add, Nat.mul_one]
  omega

theorem claim_C1_amended (batch_size batch_multiplier batch_size_multiple bucket_width k
    kp m raw : Nat)
    (hkp : kp = if 1 < bucket_width then k + 1 else k)
    (hm : m = batch_multiplier * batch_size_multiple)
    (hraw : raw = batch_size * batch_multiplier / (kp * bucket_width))
    (hpos : 0 < kp * bucket_width) :
    (1 < m →
      window_size_func batch_size batch_multiplier batch_size_multiple bucket_width k =
        some (m * (raw / m + 1)) ∧
      m ∣ m * (raw / m + 1) ∧ raw < m * (raw / m + 1) ∧
      m * (raw / m + 1) ≤ raw + m ∧ m ≤ m * (raw / m + 1)) ∧
    (m = 1 →
      window_size_func batch_size batch_multiplier batch_size_multiple bucket_width k =
        some (max raw 1)) := by
  subst hkp hm hraw
  simp only [window_size_func]
  rw [if_neg (by omega)]
  constructor
  · intro h1m
    rw [if_pos h1m,
      round_up_exact _ _ (show 0 < batch_multiplier * batch_size_multiple by omega)]
    have hle := le_mul_succ (batch_multiplier * batch_size_multiple)
      (batch_size * batch_multiplier /
        ((if 1 < bucket_width then k + 1 else k) * bucket_width) /
        (batch_multiplier * batch_size_multiple))
    exact ⟨by rw [Nat.max_eq_left hle], Dvd.intro _ rfl,
      lt_round_up _ _ (by omega), round_up_le _ _ (by omega), hle⟩
  · intro h1
    rw [if_neg (by omega), h1]

/-- Witness for C1 at batch_size 5, batch_multiplier 2, batch_size_multiple
1, bucket_width 5, bucket key 0. -/
theorem claim_C1_witness :
    window_size_func 5 2 1 5 0 = some (2 * (2 / 2 + 1)) :=
  ((claim_C1_amended 5 2 1 5 0 1 2 2 (by decide) (by decide) (by decide)
    (by decide)).1 (by decide)).1

/-- The first collected constraint for a scalar length is its positivity
check. -/
theorem length_constraints_int_head (n : Int) (mx : PyMax) :
    ∃ t, length_constraints (.int n) mx = decide (0 < n) :: t := by
  cases mx with
  | unset => exact ⟨[], rfl⟩
  | int mxv => exact ⟨[decide (n ≤ mxv)], rfl⟩
  | list ns =>
    cases ns with
    | nil => exact ⟨[], rfl⟩
    | cons n2 ns2 => exact ⟨[decide (n ≤ n2)], rfl⟩

/-- An example passing the length filter with a labels length function set
has a positive labels length, hence a positive effective length. -/
theorem effective_length_pos_of_labels (maxF maxL : PyMax)
    (ffn : Option (F → PyLen)) (g : L → Int) (ex : F × L)
    (hpred : length_filter_predicate maxF maxL ffn (some g) ex = true) :
    0 < effective_length ffn (some g) ex := by
  have h0 : 0 < g ex.2 := by
    obtain ⟨t, ht⟩ := length_constraints_int_head (g ex.2) maxL
    simp only [length_filter_predicate, List.all_append, Bool.and_eq_true] at hpred
    have hl := hpred.2
    rw [ht] at hl
    simp only [List.all_cons, Bool.and_eq_true, decide_eq_true_eq] at hl
    exact hl.1
  unfold effective_length key_func
  simp only [Option.map_some', Nat.cast_one, Int.fdiv_one]
  cases ffn with
  | none =>
    simp only []
    omega
  | some f =>
    cases hf : f ex.1 with
    | int fl =>
      simp only []
      omega
    | list ns =>
      simp only []
      omega

/-- C6: in token mode the window-size division has a nonzero denominator for
every bucket key when `bucket_width > 1`; when `bucket_width == 1` the
denominator is zero exactly at bucket key 0, which is unreachable for an
example whose effective length is positive — in particular for any example
that passed the length filter with a labels length function set; without
that precondition the division by zero is reachable, e.g. with no length
functions at all. -/
theorem claim_C6 {F L : Type} (batch_size batch_multiplier batch_size_multiple : Nat) :
    (∀ (bucket_width key : Nat), 1 < bucket_width →
      (window_size_func batch_size batch_multiplier batch_size_multiple bucket_width
        key).isSome = true) ∧
    (∀ key : Nat,
      window_size_func batch_size batch_multiplier batch_size_multiple 1 key = none ↔
        key = 0) ∧
    (∀ (maxF maxL : PyMax) (ffn : Option (F → PyLen)) (lfn : Option (L → Int))
      (ex : F × L),
      length_filter_predicate maxF maxL ffn lfn ex = true →
      0 < effective_length ffn lfn ex →
      (window_size_func batch_size batch_multiplier batch_size_multiple 1
        (key_func ffn lfn 1 ex)).isSome = true) ∧
    (∀ (maxF maxL : PyMax) (ffn : Option (F → PyLen)) (g : L → Int) (ex : F × L),
      length_filter_predicate maxF maxL ffn (some g) ex = true →
      0 < effective_length ffn (some g) ex) ∧
    window_size_func 10 1 1 1 (key_func (F:=Unit) (L:=Unit) none none 1 ((), ())) =
      none := by
  have hiff : ∀ key : Nat,
      window_size_func batch_size batch_multiplier batch_size_multiple 1 key = none ↔
        key = 0 := by
    intro key
    simp only [window_size_func]
    rw [if_neg (show ¬(1:Nat) < 1 by omega)]
    constructor
    · intro h
      by_contra hk
      rw [if_neg (by omega)] at h
      exact absurd h (by simp)
    · intro h
      subst h
      simp
  refine ⟨?_, hiff, ?_, effective_length_pos_of_labels, by decide⟩
  · intro bucket_width key hW
    simp only [window_size_func]
    rw [if_pos hW, if_neg (by
      intro hzero
      have : 0 < (key + 1) * bucket_width := Nat.mul_pos (by omega) (by omega)
      omega)]
    simp
  · intro maxF maxL ffn lfn ex _ heff
    have hkeypos : 0 < key_func ffn lfn 1 ex := heff
    simp only [window_size_func]
    rw [if_neg (show ¬(1:Nat) < 1 by omega), if_neg (by omega)]
    simp

/-- Witness for C6 applying each guarded part at concrete inputs. -/
theorem claim_C6_witness :
    (window_size_func 10 1 1 2 0).isSome = true ∧
    (window_size_func 10 1 1 1 3 = none ↔ (3 : Nat) = 0) ∧
    (window_size_func 10 1 1 1
      (key_func (F:=Unit) (L:=Unit) (some (fun _ => .int 3)) none 1
        ((), ()))).isSome = true ∧
    0 < effective_length (F:=Unit) (L:=Unit) (some (fun _ => .int 3))
      (some (fun _ => (2 : Int))) ((), ()) := by
  obtain ⟨h1, h2, h3, h4, _⟩ := claim_C6 (F:=Unit) (L:=Unit) 10 1 1
  exact ⟨h1 2 0 (by decide), h2 3,
    h3 .unset .unset (some (fun _ => .int 3)) none ((), ()) (by decide) (by decide),
    h4 .unset .unset (some (fun _ => .int 3)) (fun _ => (2 : Int)) ((), ()) (by decide)⟩

/-- C9: in `batch_parallel_dataset` with a bucket width set, if neither
length function is provided, or the features length is list-valued and no
labels length function is set, the key function assigns bucket key 0 to
every example and bucketing degrades to flat windowed grouping of the input
in order, regardless of example lengths. -/
theorem claim_C9 {F L : Type} (ffn : Option (F → PyLen)) (lfn : Option (L → Int))
    (bucket_width : Nat)
    (hlfn : lfn = none)
    (hffn : ffn = none ∨ ∃ f, ffn = some f ∧ ∀ x, ∃ ns, f x = PyLen.list ns) :
    (∀ ex : F × L, key_func ffn lfn bucket_width ex = 0) ∧
    (∀ (w : Nat) (xs : List (F × L)), 0 < w →
      group_by_window (key_func ffn lfn bucket_width) (fun _ => some w) xs =
        some (chunks w xs)) := by
  have hkey : ∀ ex : F × L, key_func ffn lfn bucket_width ex = 0 := by
    intro ex
    subst hlfn
    rcases hffn with h | ⟨f, rfl, hf⟩
    · subst h; rfl
    · obtain ⟨ns, hns⟩ := hf ex.1
      simp [key_func, hns]
  exact ⟨hkey, fun w xs hw => group_by_window_const _ 0 hkey w hw xs⟩

/-- Witness for C9: a list-valued features length with no labels length
function produces plain chunked grouping. -/
theorem claim_C9_witness :
    group_by_window (key_func (F:=Unit) (L:=Unit) (some (fun _ => PyLen.list [3, 4])) none 5)
      (fun _ => some 2) [((), ()), ((), ()), ((), ())] =
      some (chunks 2 [((), ()), ((), ()), ((), ())]) :=
  (claim_C9 _ none 5 rfl
    (Or.inr ⟨_, rfl, fun _ => ⟨[3, 4], rfl⟩⟩)).2 2 _ (by decide)

/-- C10: `_inject_index i x` returns an element whose "index" field equals
`i` and whose every other field is unchanged; no field other than "index" is
added, removed or modified. -/
theorem claim_C10 {V : Type} (x : DictElem V) (i : Nat) :
    get_item (inject_index i x) "index" = some (.idx i) ∧
    (∀ k, k ≠ "index" → get_item (inject_index i x) k = get_item x k) ∧
    (inject_index i x).map Prod.fst =
      (if x.any (fun p => decide (p.1 = "index")) then x.map Prod.fst
       else x.map Prod.fst ++ ["index"]) :=
  ⟨get_item_set_item_same x "index" _,
   fun k hk => get_item_set_item_other x "index" k _ hk,
   set_item_keys x "index" _⟩

/-- Witness for C10 on a one-field dict. -/
theorem claim_C10_witness :
    get_item (inject_index (V:=Nat) 7 [("a", .val 5)]) "index" = some (.idx 7) ∧
    get_item (inject_index (V:=Nat) 7 [("a", .val 5)]) "a" = some (.val 5) := by
  obtain ⟨h1, h2, _⟩ := claim_C10 (V:=Nat) [("a", .val 5)] 7
  refine ⟨h1, ?_⟩
  rw [h2 "a" (by decide)]
  decide

theorem zip_append_right_of_le :
    ∀ (l : List α) (a b : List β), l.length ≤ a.length → l.zip (a ++ b) = l.zip a := by
  intro l
  induction l with
  | nil => intro a b _; simp
  | cons x l ih =>
    intro a b hlen
    cases a with
    | nil => simp at hlen
    | cons y a =>
      simp only [List.cons_append, List.zip_cons_cons]
      rw [ih a b (by simp at hlen; omega)]

/-- C4: `filter_examples_by_length` is the identity when both length
functions are unset; otherwise an example is retained if and only if, for
every side whose length function is set, after normalizing lengths and
maxima to lists and padding missing maxima with no-constraint, every
position has a positive length not exceeding its maximum when one is set;
maxima beyond the number of observed lengths have no effect. -/
theorem claim_C4 {F L : Type} (maxF maxL : PyMax) (ffn : Option (F → PyLen))
    (lfn : Option (L → Int)) (dataset : List (F × L)) :
    (ffn = none → lfn = none →
      filter_examples_by_length maxF maxL ffn lfn dataset = dataset) ∧
    (ffn.isSome = true ∨ lfn.isSome = true →
      filter_examples_by_length maxF maxL ffn lfn dataset =
        dataset.filter (length_filter_predicate maxF maxL ffn lfn) ∧
      ∀ ex : F × L,
        length_filter_predicate maxF maxL ffn lfn ex = true ↔
          retained_spec maxF maxL ffn lfn ex) ∧
    (∀ (len : PyLen) (ms extra : List Int),
      (pyLenToList len).length ≤ ms.length →
      length_constraints len (.list (ms ++ extra)) = length_constraints len (.list ms)) := by
  refine ⟨?_, ?_, ?_⟩
  · intro h1 h2
    subst h1 h2
    simp [filter_examples_by_length]
  · intro hsome
    have hcond : ¬(ffn.isNone && lfn.isNone) = true := by
      rcases hsome with h | h <;> cases ffn <;> cases lfn <;> simp_all
    simp only [filter_examples_by_length, if_neg hcond]
    exact ⟨trivial, fun ex => length_filter_predicate_iff_retained maxF maxL ffn lfn ex⟩
  · intro len ms extra hlen
    simp only [length_constraints, pyMaxToList]
    rw [show (pyLenToList len).length - ((ms ++ extra).map some).length = 0 from by
        simp only [List.length_map, List.length_append]; omega,
      show (pyLenToList len).length - (ms.map some).length = 0 from by
        simp only [List.length_map]; omega]
    simp only [List.replicate_zero, List.append_nil, List.map_append]
    rw [zip_append_right_of_le _ _ _ (by simp only [List.length_map]; exact hlen)]

/-- Witness for C4: a multi-source example with lengths [2, 3] against a
single configured maximum 2 is retained, and appending extra maxima beyond
the observed lengths leaves the constraints unchanged. -/
theorem claim_C4_witness :
    filter_examples_by_length (PyMax.list [2]) .unset
      (some (fun _ => PyLen.list [2, 3])) none [((), ())] = [((), ())] ∧
    length_constraints (.int 3) (.list ([5] ++ [7, 8])) =
      length_constraints (.int 3) (.list [5]) := by
  obtain ⟨h1, h2, h3⟩ := claim_C4 (F:=Unit) (L:=Unit) (PyMax.list [2]) .unset
    (some (fun _ => PyLen.list [2, 3])) none [((), ())]
  refine ⟨?_, h3 (.int 3) [5] [7, 8] (by decide)⟩
  rw [(h2 (Or.inl rfl)).1]
  decide

/-- C3, counterexample: with shard_size 4 and dataset_size 10 the three
linspace offsets are 0, 3, 6, the emitted shards overlap, and the output
(here for the identity shuffle of the offsets) duplicates elements 3 and 6,
so it is not a permutation of the input. -/
theorem claim_C3_counterexample :
    random_shard 4 10 id (List.range 10) = [0, 1, 2, 3, 3, 4, 5, 6, 6, 7, 8, 9] ∧
    ¬(random_shard 4 10 id (List.range 10)).Perm (List.range 10) := by
  refine ⟨by decide, ?_⟩
  intro h
  have hlen := h.length_eq
  rw [show random_shard 4 10 id (List.range 10) =
    [0, 1, 2, 3, 3, 4, 5, 6, 6, 7, 8, 9] from by decide] at hlen
  simp at hlen

/-- C3, amended: when the shard size divides the dataset size, random_shard
partitions the input into `ceil(N / S)` shards whose start offsets are the
even multiples of S from 0 (not reaching N), shuffles only the order of
these offsets, and emits for each offset the next S consecutive elements;
applied to the dataset `[0..N-1]` the concatenated output is a permutation
of `[0..N-1]` that is a union of contiguous runs of length S. -/
theorem claim_C3_amended (S N : Nat) (shuffle : List Nat → List Nat)
    (hS : 0 < S) (hdvd : S ∣ N)
    (hshuf : (shuffle (linspace_offsets N (ceil_div N S))).Perm
      (linspace_offsets N (ceil_div N S))) :
    ceil_div N S = N / S ∧
    linspace_offsets N (ceil_div N S) = (List.range (N / S)).map (fun i => i * S) ∧
    (∀ o ∈ linspace_offsets N (ceil_div N S), o + S ≤ N) ∧
    random_shard S N shuffle (List.range N) =
      (shuffle (linspace_offsets N (ceil_div N S))).flatMap
        (fun o => List.range' o S) ∧
    (random_shard S N shuffle (List.range N)).Perm (List.range N) := by
  obtain ⟨q, rfl⟩ := hdvd
  have hq : S * q / S = q := Nat.mul_div_cancel_left q hS
  have hceil : ceil_div (S * q) S = q := by
    unfold ceil_div
    rw [show S * q + S - 1 = S * q + (S - 1) from by omega, Nat.mul_add_div hS,
      Nat.div_eq_of_lt (by omega), Nat.add_zero]
  have hoff : linspace_offsets (S * q) q = (List.range q).map (fun i => i * S) := by
    unfold linspace_offsets
    apply List.map_congr_left
    intro i hi
    rw [List.mem_range] at hi
    rw [show i * (S * q) = i * S * q from by ring, Nat.mul_div_cancel _ (by omega)]
  have hbound : ∀ o ∈ linspace_offsets (S * q) (ceil_div (S * q) S), o + S ≤ S * q := by
    intro o ho
    rw [hceil, hoff] at ho
    obtain ⟨i, hi, rfl⟩ := List.mem_map.mp ho
    rw [List.mem_range] at hi
    have hstep : (i + 1) * S ≤ q * S := Nat.mul_le_mul_right S (by omega)
    calc i * S + S = (i + 1) * S := by ring
    _ ≤ q * S := hstep
    _ = S * q := by ring
  have hflat : random_shard S (S * q) shuffle (List.range (S * q)) =
      (shuffle (linspace_offsets (S * q) (ceil_div (S * q) S))).flatMap
        (fun o => List.range' o S) := by
    simp only [random_shard, List.flatMap_def]
    congr 1
    apply List.map_congr_left
    intro o ho
    have ho2 : o ∈ linspace_offsets (S * q) (ceil_div (S * q) S) := hshuf.mem_iff.mp ho
    exact drop_range_take o S (S * q) (hbound o ho2)
  refine ⟨by rw [hceil, hq], by rw [hceil, hq, hoff], hbound, hflat, ?_⟩
  rw [hflat]
  have hperm : ((shuffle (linspace_offsets (S * q) (ceil_div (S * q) S))).flatMap
      (fun o => List.range' o S)).Perm
      ((linspace_offsets (S * q) (ceil_div (S * q) S)).flatMap
        (fun o => List.range' o S)) :=
    List.Perm.flatMap_right _ hshuf
  refine hperm.trans ?_
  rw [hceil, hoff, List.flatMap_def, List.map_map,
    show ((fun o => List.range' o S) ∘ fun i => i * S) =
      (fun i => List.range' (i * S) S) from rfl,
    flatten_consecutive_runs S q, show q * S = S * q from by ring]

/-- Witness for C3 with S = 2, N = 6 and the identity shuffle. -/
theorem claim_C3_witness :
    (random_shard 2 6 id (List.range 6)).Perm (List.range 6) :=
  (claim_C3_amended 2 6 id (by decide) (by decide) (List.Perm.refl _)).2.2.2.2

/-- Converting a list of dicts to structs and back extracts the dicts. -/
theorem mapM_asDict_map_dict {V : Type u} :
    ∀ (l : List (DictElem V)), (l.map PyStruct.dict).mapM PyStruct.asDict = some l := by
  intro l
  induction l with
  | nil => rfl
  | cons d l ih =>
    simp only [List.map_cons, List.mapM_cons, ih, PyStruct.asDict]
    rfl

/-- C2, counterexample: with `bucket_width` unset, `batch_parallel_dataset`
accepts an invalid `batch_type` without raising, because the flat-batching
early return precedes the batch-type check. -/
theorem claim_C2_counterexample :
    exceptIsOk (batch_parallel_dataset (F:=Unit) (L:=Unit) 1 "invalid" 1 1 none
      none none) = true := rfl

/-- C2, amended: with `bucket_width` set, every batch_type other than
"examples" and "tokens" makes `batch_parallel_dataset` fail with a
`ValueError` at construction time (with `bucket_width` unset the batch type
is ignored and no error is raised); `inference_pipeline` fails at
construction when `bucket_width` is set and positive but `length_fn` is
unset, or when the dataset elements are not mapping-typed; no such error
occurs for valid configurations. -/
theorem claim_C2_amended {F L V : Type} :
    (∀ (batch_size batch_multiplier batch_size_multiple width : Nat)
      (ffn : Option (F → PyLen)) (lfn : Option (L → Int)) (batch_type : String),
      batch_type ≠ "examples" → batch_type ≠ "tokens" →
      batch_parallel_dataset batch_size batch_type batch_multiplier batch_size_multiple
        (some width) ffn lfn =
        .error (.invalidConfig "Invalid batch type; should be examples or tokens")) ∧
    (∀ (batch_size batch_multiplier batch_size_multiple : Nat)
      (bucket_width : Option Nat) (ffn : Option (F → PyLen)) (lfn : Option (L → Int))
      (batch_type : String), batch_type = "examples" ∨ batch_type = "tokens" →
      exceptIsOk (batch_parallel_dataset batch_size batch_type batch_multiplier
        batch_size_multiple bucket_width ffn lfn) = true) ∧
    (∀ (batch_size : Nat) (process_fn : Option (PyStruct V → PyStruct V)) (width : Int)
      (dataset : List (PyStruct V)), 0 < width →
      inference_pipeline batch_size process_fn (some width) none dataset =
        .error (.invalidConfig "length_fn is required when reordering by length")) ∧
    (∀ (batch_size : Nat) (width : Int) (lf : PyStruct V → PyLen)
      (v : V) (rest : List (PyStruct V)), 0 < width →
      inference_pipeline batch_size none (some width) (some lf)
        (PyStruct.tensor v :: rest) =
        .error (.invalidConfig
          "Reordering by length expects dataset elements to be Python dicts")) ∧
    (∀ (batch_size : Nat) (bucket_width : Option Int)
      (lf : Option (PyStruct V → PyLen)) (dataset : List (PyStruct V)),
      (∀ width, bucket_width = some width → width ≤ 0) →
      exceptIsOk (inference_pipeline batch_size none bucket_width lf dataset) = true) ∧
    (∀ (batch_size : Nat) (width : Int) (lf : PyStruct V → PyLen)
      (delems : List (DictElem V)), 0 < width → delems ≠ [] →
      exceptIsOk (inference_pipeline batch_size none (some width) (some lf)
        (delems.map PyStruct.dict)) = true) := by
  refine ⟨?_, ?_, ?_, ?_, ?_, ?_⟩
  · intro batch_size batch_multiplier batch_size_multiple width ffn lfn batch_type h1 h2
    simp only [batch_parallel_dataset]
    rw [if_neg h1, if_neg h2]
  · intro batch_size batch_multiplier batch_size_multiple bucket_width ffn lfn
      batch_type htype
    rcases htype with rfl | rfl <;> cases bucket_width <;>
      simp [batch_parallel_dataset, exceptIsOk]
  · intro batch_size process_fn width dataset hW
    simp only [inference_pipeline]
    rw [if_pos hW]
  · intro batch_size width lf v rest hW
    simp only [inference_pipeline, get_output_shapes, List.head?]
    rw [if_pos hW]
  · intro batch_size bucket_width lf dataset hle
    cases bucket_width with
    | none => rfl
    | some width =>
      have hw := hle width rfl
      simp only [inference_pipeline]
      rw [if_neg (by omega)]
      rfl
  · intro batch_size width lf delems hW hne
    cases delems with
    | nil => exact absurd rfl hne
    | cons d rest =>
      simp only [inference_pipeline, List.map_cons, get_output_shapes, List.head?]
      rw [if_pos hW]
      simp only [show (PyStruct.dict d :: rest.map PyStruct.dict).mapM PyStruct.asDict =
          some (d :: rest) from mapM_asDict_map_dict (d :: rest)]
      have hsome := group_by_window_aux_isSome (inf_key_func lf width)
        (fun _ => some batch_size) (fun _ => rfl)
        ((d :: rest).enum.map (fun p => inject_index p.1 p.2)) []
      cases hgbw : group_by_window (inf_key_func lf width) (fun _ => some batch_size)
        ((d :: rest).enum.map (fun p => inject_index p.1 p.2)) with
      | none =>
        unfold group_by_window at hgbw
        rw [hgbw] at hsome
        exact absurd hsome (by simp)
      | some windows => rfl

/-- Witness for C2 at concrete configurations. -/
theorem claim_C2_witness :
    batch_parallel_dataset (F:=Unit) (L:=Unit) 1 "bogus" 1 1 (some 1) none none =
      .error (.invalidConfig "Invalid batch type; should be examples or tokens") ∧
    exceptIsOk (batch_parallel_dataset (F:=Unit) (L:=Unit) 1 "examples" 1 1 (some 1)
      none none) = true ∧
    inference_pipeline (V:=Nat) 1 none (some 1) none [] =
      .error (.invalidConfig "length_fn is required when reordering by length") ∧
    inference_pipeline (V:=Nat) 1 none (some 1) (some (fun _ => .int 1))
      [.tensor 5] =
      .error (.invalidConfig
        "Reordering by length expects dataset elements to be Python dicts") ∧
    exceptIsOk (inference_pipeline (V:=Nat) 1 none (some 1) (some (fun _ => .int 1))
      ([[("a", .val 3)]].map PyStruct.dict)) = true := by
  obtain ⟨ha, hb, hc, hd, _, hf⟩ := claim_C2_amended (F:=Unit) (L:=Unit) (V:=Nat)
  exact ⟨ha 1 1 1 1 none none "bogus" (by decide) (by decide),
    hb 1 1 1 (some 1) none none "examples" (Or.inl rfl),
    hc 1 none 1 [] (by decide),
    hd 1 1 (fun _ => .int 1) 5 [] (by decide),
    hf 1 1 (fun _ => .int 1) [[("a", .val 3)]] (by decide) (by simp)⟩

/-! ### Lemmas about `RDataset.get` -/

theorem RDataset_get_finite {α : Type u} (items : List α) (n : Nat)
    (h : items.length ≤ n) : (RDataset.mk items false).get n = none := by
  simp [RDataset.get, List.get?_eq_none, h]

theorem RDataset_get_repeat_isSome {α : Type u} (items : List α) (hne : items ≠ [])
    (n : Nat) : ((RDataset.mk items true).get n).isSome = true := by
  have hpos : 0 < items.length := List.length_pos.mpr hne
  have hlt : n % items.length < items.length := Nat.mod_lt n hpos
  have hemp : items.isEmpty = false := by simp [List.isEmpty_iff, hne]
  simp [RDataset.get, hemp, List.getElem?_eq_getElem hlt]

theorem RDataset_get_cycle {α : Type u} (items : List α) (n : Nat) :
    (RDataset.mk items true).get (n + items.length) =
      (RDataset.mk items true).get n := by
  simp [RDataset.get, Nat.add_mod_right]

/-- C8, counterexample: with `single_pass = False` over an empty source the
repeat stage is applied, yet the output stream terminates immediately, so
the output does not cycle indefinitely for every finite source. -/
theorem claim_C8_counterexample :
    training_pipeline (F:=Unit) (L:=Unit) 1 "examples" 1 1 none none none none
      .unset .unset false none 1 0 none id id [] =
      .ok { items := [], repeated := true } ∧
    (RDataset.mk ([] : List (List (Unit × Unit))) true).get 0 = none :=
  ⟨rfl, rfl⟩

/-- C8, amended: `training_pipeline` with `single_pass = True` applies no
repeat stage and produces a finite sequence of batches; with
`single_pass = False` the repeat stage is applied and, provided at least one
batch is produced from the finite source, the output sequence never
terminates, cycling over the finite batch list indefinitely. -/
theorem claim_C8_amended {F L : Type} (batch_size : Nat) (batch_type : String)
    (batch_multiplier batch_size_multiple : Nat)
    (process_fn : Option (F × L → F × L)) (bucket_width : Option Nat)
    (features_length_fn : Option (F → PyLen)) (labels_length_fn : Option (L → Int))
    (maximum_features_length maximum_labels_length : PyMax)
    (single_pass : Bool) (dataset_size : Option Nat) (num_shards shard_index : Nat)
    (shuffle_buffer_size : Option Int)
    (shuffle_offsets : List Nat → List Nat)
    (shuffle_elems : List (F × L) → List (F × L))
    (dataset : List (F × L)) (out : RDataset (List (F × L)))
    (hrun : training_pipeline batch_size batch_type batch_multiplier batch_size_multiple
      process_fn bucket_width features_length_fn labels_length_fn
      maximum_features_length maximum_labels_length single_pass dataset_size
      num_shards shard_index shuffle_buffer_size shuffle_offsets shuffle_elems
      dataset = .ok out) :
    (single_pass = true → out.repeated = false ∧
      ∀ n, out.items.length ≤ n → out.get n = none) ∧
    (single_pass = false → out.repeated = true ∧
      (out.items ≠ [] →
        (∀ n, (out.get n).isSome = true) ∧
        ∀ n, out.get (n + out.items.length) = out.get n)) := by
  have hshape : out.repeated = !single_pass := by
    simp only [training_pipeline] at hrun
    split at hrun
    · exact absurd hrun (by simp)
    · split at hrun
      · exact absurd hrun (by simp)
      · simp only [Except.ok.injEq] at hrun
        rw [← hrun]
  constructor
  · intro hsp
    rw [hsp] at hshape
    simp only [Bool.not_true] at hshape
    refine ⟨hshape, ?_⟩
    intro n hn
    have : out = RDataset.mk out.items false := by
      cases out
      simp_all
    rw [this]
    exact RDataset_get_finite out.items n hn
  · intro hsp
    rw [hsp] at hshape
    simp only [Bool.not_false] at hshape
    refine ⟨hshape, ?_⟩
    intro hne
    have : out = RDataset.mk out.items true := by
      cases out
      simp_all
    rw [this]
    exact ⟨RDataset_get_repeat_isSome out.items hne,
      fun n => RDataset_get_cycle out.items n⟩

/-- Witness for C8: a one-example source with `single_pass = False` yields a
never-terminating cyclic stream. -/
theorem claim_C8_witness :
    ((RDataset.mk [[(((), ()) : Unit × Unit)]] true).get 5).isSome = true := by
  have h := claim_C8_amended (F:=Unit) (L:=Unit) 1 "examples" 1 1 none none none none
    .unset .unset false none 1 0 none id id [((), ())]
    (RDataset.mk [[((), ())]] true) rfl
  exact ((h.2 rfl).2 (by simp)).1 5

/-! ### Lemmas for the inference order-recovery claim -/

theorem flatten_map_map {α β : Type u} (f : α → β) :
    ∀ (l : List (List α)), (l.map (List.map f)).flatten = l.flatten.map f := by
  intro l
  induction l with
  | nil => rfl
  | cons x l ih => simp only [List.map_cons, List.flatten_cons, List.map_append, ih]

theorem flatten_flatMap_batch {α : Type u} (w : Nat) :
    ∀ (windows : List (List α)),
      (windows.flatMap (batch_dataset w)).flatten = windows.flatten := by
  intro windows
  induction windows with
  | nil => rfl
  | cons win windows ih =>
    simp only [List.flatMap_cons, List.flatten_append, ih, List.flatten_cons]
    rw [show (batch_dataset w win).flatten = win from chunks_flatten w win]

theorem get_index_inject {V : Type} (i : Nat) (d : DictElem V) :
    get_index (PyStruct.dict (inject_index i d)) = some i := by
  simp [get_index, inject_index, get_item_set_item_same]

theorem tagged_pairwise {V : Type} (l : List (DictElem V)) :
    (l.enum.map (fun p => PyStruct.dict (inject_index p.1 p.2))).Pairwise
      (fun a b => (get_index a).getD 0 < (get_index b).getD 0) := by
  rw [List.pairwise_iff_getElem]
  intro i j hi hj hij
  simp only [List.length_map, List.enum_length] at hi hj
  rw [List.getElem_map, List.getElem_map, List.getElem_enum, List.getElem_enum]
  simp only [get_index_inject, Option.getD_some]
  exact hij

theorem drop_index_inject {V : Type} (i : Nat) (d : DictElem V)
    (h : "index" ∉ d.map Prod.fst) :
    drop_index (PyStruct.dict (inject_index i d)) = PyStruct.dict d := by
  simp only [drop_index, inject_index, set_item_of_not_mem d "index" _ h]
  rw [List.filter_append, filter_ne_key_of_not_mem "index" d h]
  simp

theorem map_drop_index_tagged {V : Type} (l : List (DictElem V))
    (h : ∀ d ∈ l, "index" ∉ d.map Prod.fst) :
    (l.enum.map (fun p => PyStruct.dict (inject_index p.1 p.2))).map drop_index =
      l.map PyStruct.dict := by
  rw [List.map_map]
  have hcong : ∀ p ∈ l.enum,
      (drop_index ∘ fun p => PyStruct.dict (inject_index p.1 p.2)) p =
        (PyStruct.dict ∘ Prod.snd) p := by
    intro p hp
    obtain ⟨i, x⟩ := p
    obtain ⟨hlt, hsnd⟩ := List.mem_enum hp
    have hx : x ∈ l := by
      rw [hsnd]
      exact List.getElem_mem hlt
    exact drop_index_inject i x (h x hx)
  rw [List.map_congr_left hcong, ← List.map_map, List.enum_map_snd]

/-- C5: in `inference_pipeline` with a positive bucket width, each element
is tagged under key "index" with its zero-based position in the original
pre-bucketing input order (the order after the process_fn mapping, which
preserves input order), and sorting all emitted elements across batches by
their "index" value recovers the original input sequence exactly (with the
injected "index" field attached; dropping it gives back the mapped input). -/
theorem claim_C5 {V : Type} (batch_size : Nat) (width : Int)
    (process_fn : PyStruct V → PyStruct V) (lf : PyStruct V → PyLen)
    (dataset : List (PyStruct V)) (mappedD : List (DictElem V))
    (hW : 0 < width)
    (hmap : dataset.map process_fn = mappedD.map PyStruct.dict)
    (hne : mappedD ≠ [])
    (hnoidx : ∀ d ∈ mappedD, "index" ∉ d.map Prod.fst) :
    ∃ batches,
      inference_pipeline batch_size (some process_fn) (some width) (some lf) dataset =
        .ok batches ∧
      sort_by_index batches.flatten =
        mappedD.enum.map (fun p => PyStruct.dict (inject_index p.1 p.2)) ∧
      (∀ i, (sort_by_index batches.flatten).get? i =
        (mappedD.get? i).map (fun d => PyStruct.dict (inject_index i d))) ∧
      (sort_by_index batches.flatten).map drop_index = dataset.map process_fn := by
  obtain ⟨d, rest, rfl⟩ : ∃ d rest, mappedD = d :: rest := by
    cases mappedD with
    | nil => exact absurd rfl hne
    | cons a b => exact ⟨a, b, rfl⟩
  have hsome := group_by_window_aux_isSome (inf_key_func lf width)
    (fun _ => some batch_size) (fun _ => rfl)
    ((d :: rest).enum.map (fun p => inject_index p.1 p.2)) []
  cases hgbw : group_by_window (inf_key_func lf width) (fun _ => some batch_size)
    ((d :: rest).enum.map (fun p => inject_index p.1 p.2)) with
  | none =>
    unfold group_by_window at hgbw
    rw [hgbw] at hsome
    exact absurd hsome (by simp)
  | some windows =>
    refine ⟨(windows.flatMap (batch_dataset batch_size)).map (List.map PyStruct.dict),
      ?_, ?_, ?_, ?_⟩
    · simp only [inference_pipeline]
      rw [hmap, if_pos hW]
      simp only [List.map_cons, get_output_shapes, List.head?]
      simp only [show ((PyStruct.dict d :: rest.map PyStruct.dict) :
          List (PyStruct V)).mapM PyStruct.asDict = some (d :: rest) from
          mapM_asDict_map_dict (d :: rest)]
      rw [hgbw]
    all_goals {
      have hemit : ((windows.flatMap (batch_dataset batch_size)).map
          (List.map PyStruct.dict)).flatten =
          windows.flatten.map PyStruct.dict := by
        rw [flatten_map_map, flatten_flatMap_batch]
      have hperm0 : (windows.flatten).Perm
          ((d :: rest).enum.map (fun p => inject_index p.1 p.2)) :=
        group_by_window_flatten_perm _ _ _ _ hgbw
      have htS : ((d :: rest).enum.map (fun p => inject_index p.1 p.2)).map
          PyStruct.dict =
          (d :: rest).enum.map (fun p => PyStruct.dict (inject_index p.1 p.2)) := by
        rw [List.map_map]
        rfl
      have hpermS : ((windows.flatten.map PyStruct.dict)).Perm
          ((d :: rest).enum.map (fun p => PyStruct.dict (inject_index p.1 p.2))) := by
        rw [← htS]
        exact hperm0.map PyStruct.dict
      haveI htot : IsTotal (PyStruct V)
          (fun a b => (get_index a).getD 0 ≤ (get_index b).getD 0) :=
        ⟨fun a b => Nat.le_total _ _⟩
      haveI htr : IsTrans (PyStruct V)
          (fun a b => (get_index a).getD 0 ≤ (get_index b).getD 0) :=
        ⟨fun a b c hab hbc => Nat.le_trans hab hbc⟩
      have hsorteq : sort_by_index (((windows.flatMap (batch_dataset batch_size)).map
          (List.map PyStruct.dict)).flatten) =
          (d :: rest).enum.map (fun p => PyStruct.dict (inject_index p.1 p.2)) := by
        apply perm_sorted_strict_eq (fun a => (get_index a).getD 0)
        · rw [hemit]
          exact hpermS.symm.trans (List.perm_insertionSort _ _).symm
        · exact tagged_pairwise (d :: rest)
        · exact List.sorted_insertionSort _ _
      first
      | exact hsorteq
      | (intro i
         rw [hsorteq, List.get?_map, List.get?_enum, Option.map_map]
         rfl)
      | (rw [hsorteq, map_drop_index_tagged _ hnoidx, ← hmap])
    }

/-- Witness for C5 on a three-element dataset with bucket width 1 and
lengths given by the number of fields. -/
theorem claim_C5_witness :
    sort_by_index
      ([[PyStruct.dict [("a", FieldVal.val 5), ("index", FieldVal.idx 0)],
         PyStruct.dict [("c", FieldVal.val 8), ("index", FieldVal.idx 2)]],
        [PyStruct.dict [("a", FieldVal.val 6), ("b", FieldVal.val 7),
          ("index", FieldVal.idx 1)]]] : List (List (PyStruct Nat))).flatten =
      ([[("a", FieldVal.val 5)], [("a", FieldVal.val 6), ("b", FieldVal.val 7)],
        [("c", FieldVal.val 8)]] : List (DictElem Nat)).enum.map
        (fun p => PyStruct.dict (inject_index p.1 p.2)) := by
  obtain ⟨batches, h1, h2, _, _⟩ := claim_C5 (V:=Nat) 2 1 id
    (fun x => match x with
      | .dict dd => PyLen.int (dd.length : Int)
      | .tensor _ => PyLen.int 0)
    [PyStruct.dict [("a", FieldVal.val 5)],
     PyStruct.dict [("a", FieldVal.val 6), ("b", FieldVal.val 7)],
     PyStruct.dict [("c", FieldVal.val 8)]]
    [[("a", FieldVal.val 5)], [("a", FieldVal.val 6), ("b", FieldVal.val 7)],
     [("c", FieldVal.val 8)]]
    (by decide) rfl (by simp) (by decide)
  have hb : batches =
      [[PyStruct.dict [("a", FieldVal.val 5), ("index", FieldVal.idx 0)],
        PyStruct.dict [("c", FieldVal.val 8), ("index", FieldVal.idx 2)]],
       [PyStruct.dict [("a", FieldVal.val 6), ("b", FieldVal.val 7),
         ("index", FieldVal.idx 1)]]] :=
    Except.ok.inj (h1.symm.trans rfl)
  rw [← hb]
  exact h2

end OpenNMT
